import Mathlib

/-!
Verification of the CaloGAN training script (models/train.py) against its
specification.

Conventions of the shallow embedding:
* machine floats are modelled by rationals (`ℚ`);
* numpy arrays are modelled by lists; multi-dimensional arrays by nested
  lists;
* the draws of numpy's random generator are passed in explicitly (a list of
  uniform draws, a list of sampled labels, and so on), so every statement
  quantifies over "every draw of the internal randomness";
* the opaque Keras model objects (`generator`, `discriminator`, `combined`)
  are not re-implemented: the training loop is embedded as the trace of the
  calls it issues to them, together with the exact target tensors and
  loss-weight tensors it passes (which the script builds itself and which
  are the objects the claims speak about).
-/

namespace CaloGAN

/-- Elementwise negation used inside `bit_flip` (train.py line 44):
on an integer entry, `1 * np.logical_not(v)` is `1` when the entry is `0`
and `0` otherwise. -/
def flipBit (b : ℕ) : ℕ := if b = 0 then 1 else 0

/-- Value-level embedding of `bit_flip` (train.py lines 40-45).

`rand` models `np.random.uniform(0, 1, x.shape)` — one draw per entry, each
in `[0, 1)` — and the masked assignment
`x[selection] = 1 * np.logical_not(x[selection])` replaces an entry by its
negation exactly when its draw is below `prob`, leaving the others alone. -/
def bit_flip (x : List ℕ) (rand : List ℚ) (prob : ℚ) : List ℕ :=
  (x.zip rand).map (fun p => if p.2 < prob then flipBit p.1 else p.1)

theorem bit_flip_nil (rand : List ℚ) (prob : ℚ) : bit_flip [] rand prob = [] := rfl

theorem bit_flip_cons (a : ℕ) (x : List ℕ) (r : ℚ) (rand : List ℚ) (prob : ℚ) :
    bit_flip (a :: x) (r :: rand) prob =
      (if r < prob then flipBit a else a) :: bit_flip x rand prob := rfl

/-- C6: the label-flip function is the identity at probability 0 and the
elementwise logical negation at probability 1, for every 0/1 indicator
array and every draw of the internal randomness. -/
theorem claim_C6_bit_flip (x : List ℕ) (rand : List ℚ)
    (hlen : rand.length = x.length)
    (hrand : ∀ r ∈ rand, 0 ≤ r ∧ r < 1)
    (hx : ∀ b ∈ x, b = 0 ∨ b = 1) :
    bit_flip x rand 0 = x ∧ bit_flip x rand 1 = x.map flipBit := by
  induction x generalizing rand with
  | nil => simp [bit_flip]
  | cons a xs ih =>
    cases rand with
    | nil => simp at hlen
    | cons r rs =>
      have hr := hrand r (by simp)
      have hrest : ∀ q ∈ rs, 0 ≤ q ∧ q < 1 := fun q hq => hrand q (by simp [hq])
      have hxrest : ∀ b ∈ xs, b = 0 ∨ b = 1 := fun b hb => hx b (by simp [hb])
      have hlen' : rs.length = xs.length := by simpa using hlen
      obtain ⟨ih0, ih1⟩ := ih rs hlen' hrest hxrest
      refine ⟨?_, ?_⟩
      · rw [bit_flip_cons, if_neg (not_lt.mpr hr.1), ih0]
      · rw [bit_flip_cons, if_pos hr.2, ih1, List.map_cons]

theorem claim_C6_witness :
    bit_flip [0, 1, 1] [0, 1/2, 2/3] 0 = [0, 1, 1] ∧
    bit_flip [0, 1, 1] [0, 1/2, 2/3] 1 = [0, 1, 1].map flipBit :=
  claim_C6_bit_flip [0, 1, 1] [0, 1/2, 2/3] (by decide)
    (by intro r hr; fin_cases hr <;> norm_num)
    (by intro b hb; fin_cases hb <;> simp)

/-! ### Heap model for the aliasing behaviour of `bit_flip` (claim C10)

`bit_flip` receives a numpy array owned by the caller.  To talk about
mutation we model arrays as references into a heap of integer arrays and
embed the two heap-relevant operations of the function body:
`x = np.array(x)` (line 42) and the masked in-place assignment (line 44). -/

/-- A heap of integer arrays; an array value held by a caller is an index
into the heap. -/
abbrev Heap := List (List ℕ)

/-- Embedding of `x = np.array(x)` (train.py line 42): numpy's array
constructor copies its argument by default, so a fresh array with the same
contents is allocated at the end of the heap and the local name is rebound
to the new reference. -/
def npArrayCopy (h : Heap) (r : ℕ) : Heap × ℕ := (h ++ [h.getD r []], h.length)

/-- Embedding of the masked in-place update
`x[selection] = 1 * np.logical_not(x[selection])` (train.py line 44): the
array stored at reference `r` is mutated, selected entries negated. -/
def maskedFlip (h : Heap) (r : ℕ) (rand : List ℚ) (prob : ℚ) : Heap :=
  h.set r (bit_flip (h.getD r []) rand prob)

/-- Heap-level embedding of the whole body of `bit_flip` (train.py lines
40-45): copy the argument, flip the selected entries of the copy in place,
return the reference to the copy. -/
def bit_flip_heap (h : Heap) (r : ℕ) (rand : List ℚ) (prob : ℚ) : Heap × ℕ :=
  let c := npArrayCopy h r
  (maskedFlip c.1 c.2 rand prob, c.2)

theorem getD_append_of_lt {α : Type _} (l m : List α) (d : α) (i : ℕ)
    (h : i < l.length) : (l ++ m).getD i d = l.getD i d := by
  induction l generalizing i with
  | nil => simp at h
  | cons a t ih =>
    cases i with
    | zero => rfl
    | succ j => simpa using ih j (by simpa using h)

theorem getD_concat_length {α : Type _} (l : List α) (a d : α) :
    (l ++ [a]).getD l.length d = a := by
  induction l with
  | nil => rfl
  | cons b t ih => simp [ih]

theorem set_concat_length {α : Type _} (l : List α) (a v : α) :
    (l ++ [a]).set l.length v = l ++ [v] := by
  induction l with
  | nil => rfl
  | cons b t ih => simp [List.set, ih]

/-- C10: `bit_flip` never mutates its argument: after the call the caller's
array holds exactly the values it held before, and the returned fresh array
holds the flipped values. -/
theorem claim_C10_no_mutation (h : Heap) (r : ℕ) (rand : List ℚ) (prob : ℚ)
    (hr : r < h.length) :
    (bit_flip_heap h r rand prob).1.getD r [] = h.getD r [] ∧
    (bit_flip_heap h r rand prob).1.getD (bit_flip_heap h r rand prob).2 [] =
      bit_flip (h.getD r []) rand prob := by
  have hget : (h ++ [h.getD r []]).getD h.length [] = h.getD r [] :=
    getD_concat_length h (h.getD r []) []
  have hstep : (bit_flip_heap h r rand prob).1 =
      h ++ [bit_flip (h.getD r []) rand prob] := by
    show maskedFlip (h ++ [h.getD r []]) h.length rand prob =
      h ++ [bit_flip (h.getD r []) rand prob]
    rw [maskedFlip, hget, set_concat_length]
  constructor
  · rw [hstep]; exact getD_append_of_lt h _ [] r hr
  · show (bit_flip_heap h r rand prob).1.getD h.length [] = _
    rw [hstep]
    exact getD_concat_length h _ []

theorem claim_C10_witness :
    (bit_flip_heap [[0, 1]] 0 [0, 0] 1).1.getD 0 [] = ([[0, 1]] : Heap).getD 0 [] ∧
    (bit_flip_heap [[0, 1]] 0 [0, 0] 1).1.getD (bit_flip_heap [[0, 1]] 0 [0, 0] 1).2 [] =
      bit_flip (([[0, 1]] : Heap).getD 0 []) [0, 0] 1 :=
  claim_C10_no_mutation [[0, 1]] 0 [0, 0] 1 (by decide)

/-! ### The adversarial training step and its call trace (claims C1, C3, C7, C8)

`train_gan` (train.py lines 473-579) is embedded as the trace of calls the
script issues to the three opaque Keras models, with the exact target and
loss-weight tensors it builds.  All random draws appear as parameters. -/

/-- `np.ones(n)` as a rational vector. -/
def np_ones (n : ℕ) : List ℚ := List.replicate n 1

/-- `np.zeros(n)` as a rational vector. -/
def np_zeros (n : ℕ) : List ℚ := List.replicate n 0

/-- Scalar times numpy vector, e.g. `0.05 * np.ones(n)`. -/
def vecScale (c : ℚ) (v : List ℚ) : List ℚ := v.map (fun x => c * x)

/-- Elementwise numpy vector addition. -/
def vecAdd (v w : List ℚ) : List ℚ := List.zipWith (fun x y => x + y) v w

/-- An integer label array viewed as a rational target tensor. -/
def natsToQ (l : List ℕ) : List ℚ := l.map (fun n => (n : ℚ))

/-- `disc_outputs_real` (train.py lines 513 and 521): realism target
`np.ones(batch_size)`, energy target the real batch's energy, plus — only
when more than one class was found — the real batch's labels. -/
def disc_outputs_real (C bs : ℕ) (label_batch : List ℕ) (energy_batch : List ℚ) :
    List (List ℚ) :=
  [np_ones bs, energy_batch] ++ (if 1 < C then [natsToQ label_batch] else [])

/-- `disc_outputs_fake` (train.py lines 514 and 522): realism target
`np.zeros(batch_size)`, energy target the sampled (requested) energies, plus
— only when more than one class was found — `bit_flip(sampled_labels, 0.3)`. -/
def disc_outputs_fake (C bs : ℕ) (sampled_labels : List ℕ)
    (sampled_energies : List ℚ) (flip_rand : List ℚ) : List (List ℚ) :=
  [np_zeros bs, sampled_energies] ++
    (if 1 < C then [natsToQ (bit_flip sampled_labels flip_rand (0.3 : ℚ))] else [])

/-- `loss_weights` (train.py lines 517 and 523):
`[np.ones(batch_size), 0.05 * np.ones(batch_size)]`, extended with
`0.2 * np.ones(batch_size)` when more than one class was found. -/
def loss_weights (C bs : ℕ) : List (List ℚ) :=
  [np_ones bs, vecScale (0.05 : ℚ) (np_ones bs)] ++
    (if 1 < C then [vecScale (0.2 : ℚ) (np_ones bs)] else [])

/-- `combined_outputs` (train.py lines 548, 559 and 564): the trick target
`trick = np.ones(batch_size)`, the requested energies, and — only when more
than one class was found — the requested labels with no label noise. -/
def combined_outputs_targets (C bs : ℕ) (sampled_labels : List ℕ)
    (sampled_energies : List ℚ) : List (List ℚ) :=
  [np_ones bs, sampled_energies] ++ (if 1 < C then [natsToQ sampled_labels] else [])

/-- The gate condition of train.py line 525:
`(last_epoch_gen_loss is None) or (last_epoch_gen_loss < maintain_gen_loss_below)
or (epoch < 10)`, with Python's short-circuit evaluation. -/
def gateOpen (lastGen : Option ℚ) (L : ℚ) (epoch : ℕ) : Bool :=
  match lastGen with
  | none => true
  | some g => decide (g < L) || decide (epoch < 10)

/-- The aligned dataset arrays the loop slices its real batches from
(`y` and `energy` after the shuffle of train.py line 303). -/
structure Dataset where
  y : List ℕ
  energy : List ℚ

/-- The random draws consumed by one training step before the generator
loop: `sampled_labels = np.random.randint(0, nb_classes, batch_size)`,
`sampled_energies = np.random.uniform(1, 100, (batch_size, 1))` (lines
502-503), and the uniform draws consumed inside `bit_flip` (line 522). -/
structure StepRand where
  sampled_labels : List ℕ
  sampled_energies : List ℚ
  flip_rand : List ℚ

/-- The random draws consumed by one iteration of the generator-update loop
(train.py lines 555-562). -/
structure RepRand where
  sampled_energies : List ℚ
  sampled_labels : List ℕ

/-- One call issued to an opaque Keras model: `generator.predict`,
`discriminator.train_on_batch` (with targets and loss weights), or
`combined.train_on_batch` (with targets and loss weights). -/
inductive GanCall where
  | genPredict : GanCall
  | discTrain : List (List ℚ) → List (List ℚ) → GanCall
  | combTrain : List (List ℚ) → List (List ℚ) → GanCall
deriving DecidableEq

/-- The trace of model calls issued by one iteration of the batch loop of
`train_gan` (train.py lines 481-572): one `generator.predict` (line 511);
then, exactly when the gate of line 525 is open, the real-batch and
fake-batch `discriminator.train_on_batch` calls (lines 527 and 536); then
`2 * train_gen_per_epoch` `combined.train_on_batch` calls (lines 554-570).
`index` slices the real batch out of the dataset (lines 494-498). -/
def stepCalls (C bs tg : ℕ) (L : ℚ) (lastGen : Option ℚ) (epoch index : ℕ)
    (ds : Dataset) (sr : StepRand) (rr : ℕ → RepRand) : List GanCall :=
  let label_batch := (ds.y.drop (index * bs)).take bs
  let energy_batch := (ds.energy.drop (index * bs)).take bs
  let lw := loss_weights C bs
  [GanCall.genPredict] ++
    (if gateOpen lastGen L epoch then
      [GanCall.discTrain (disc_outputs_real C bs label_batch energy_batch) lw,
       GanCall.discTrain
         (disc_outputs_fake C bs sr.sampled_labels sr.sampled_energies sr.flip_rand) lw]
    else []) ++
    (List.range (2 * tg)).map (fun j =>
      GanCall.combTrain
        (combined_outputs_targets C bs (rr j).sampled_labels (rr j).sampled_energies) lw)

/-- `nb_batches = int(first.shape[0] / batch_size)` (train.py line 730);
for the non-negative sizes involved this is floor division. -/
def nb_batches (nbEvents bs : ℕ) : ℕ := nbEvents / bs

/-- The trace of model calls issued by one full epoch of `train_gan`:
the batch loop of line 481 runs `nb` steps. -/
def epochCalls (C bs tg : ℕ) (L : ℚ) (lastGen : Option ℚ) (epoch nb : ℕ)
    (ds : Dataset) (sr : ℕ → StepRand) (rr : ℕ → ℕ → RepRand) : List GanCall :=
  (List.range nb).flatMap (fun i => stepCalls C bs tg L lastGen epoch i ds (sr i) (rr i))

def isDiscTrain : GanCall → Bool
  | .discTrain _ _ => true
  | _ => false

def isGenSideCall : GanCall → Bool
  | .genPredict => true
  | .combTrain _ _ => true
  | _ => false

/-- Number of `discriminator.train_on_batch` calls in a trace. -/
def countDiscTrain (cs : List GanCall) : ℕ := cs.countP isDiscTrain

/-- Number of generator-side calls (`generator.predict` plus
`combined.train_on_batch`) in a trace. -/
def countGenCalls (cs : List GanCall) : ℕ := cs.countP isGenSideCall

theorem countDiscTrain_step (C bs tg : ℕ) (L : ℚ) (lastGen : Option ℚ)
    (epoch index : ℕ) (ds : Dataset) (sr : StepRand) (rr : ℕ → RepRand) :
    countDiscTrain (stepCalls C bs tg L lastGen epoch index ds sr rr) =
      if gateOpen lastGen L epoch then 2 else 0 := by
  by_cases hg : gateOpen lastGen L epoch <;>
    simp [stepCalls, hg, countDiscTrain, List.countP_append, List.countP_map,
      List.countP_cons, isDiscTrain, Function.comp]

theorem countGenCalls_step (C bs tg : ℕ) (L : ℚ) (lastGen : Option ℚ)
    (epoch index : ℕ) (ds : Dataset) (sr : StepRand) (rr : ℕ → RepRand) :
    countGenCalls (stepCalls C bs tg L lastGen epoch index ds sr rr) =
      1 + 2 * tg := by
  have hc : List.countP
      (isGenSideCall ∘ fun j =>
        GanCall.combTrain
          (combined_outputs_targets C bs (rr j).sampled_labels (rr j).sampled_energies)
          (loss_weights C bs))
      (List.range (2 * tg)) = (List.range (2 * tg)).length :=
    List.countP_eq_length.mpr (fun a _ => rfl)
  by_cases hg : gateOpen lastGen L epoch <;>
    simp [stepCalls, hg, countGenCalls, List.countP_append, List.countP_map,
      List.countP_cons, isGenSideCall] <;>
    rw [hc, List.length_range] <;> ring

theorem gateOpen_iff (lastGen : Option ℚ) (L : ℚ) (epoch : ℕ) :
    gateOpen lastGen L epoch = true ↔
      (lastGen = none ∨ (∃ g, lastGen = some g ∧ g < L) ∨ epoch < 10) := by
  cases lastGen with
  | none => simp [gateOpen]
  | some g => simp [gateOpen]

/-- C1: in every training step the two `discriminator.train_on_batch`
calls (real batch, then fake batch) happen exactly when the gate condition
holds — no generator loss recorded, or the recorded loss below the
configured ceiling, or epoch below 10; with a recorded loss at or above the
ceiling and epoch at least 10 the discriminator gets zero calls, and before
epoch 10 it always gets its two calls. -/
theorem claim_C1_gate_policy (C bs tg : ℕ) (L : ℚ) (lastGen : Option ℚ)
    (epoch index : ℕ) (ds : Dataset) (sr : StepRand) (rr : ℕ → RepRand) :
    (countDiscTrain (stepCalls C bs tg L lastGen epoch index ds sr rr) = 2 ↔
      (lastGen = none ∨ (∃ g, lastGen = some g ∧ g < L) ∨ epoch < 10)) ∧
    (∀ g, lastGen = some g → L ≤ g → 10 ≤ epoch →
      countDiscTrain (stepCalls C bs tg L lastGen epoch index ds sr rr) = 0) ∧
    (epoch < 10 →
      countDiscTrain (stepCalls C bs tg L lastGen epoch index ds sr rr) = 2) := by
  simp only [countDiscTrain_step]
  refine ⟨?_, ?_, ?_⟩
  · rw [← gateOpen_iff lastGen L epoch]
    by_cases hg : gateOpen lastGen L epoch <;> simp [hg]
  · intro g hgeq hge hep
    subst hgeq
    have : gateOpen (some g) L epoch = false := by
      simp [gateOpen, not_lt.mpr hge, not_lt.mpr hep]
    simp [this]
  · intro hep
    have : gateOpen lastGen L epoch = true := by
      rw [gateOpen_iff]; exact Or.inr (Or.inr hep)
    simp [this]

/-- Fixed concrete data used by the instance theorems below. -/
def ds0 : Dataset := ⟨List.replicate 8 0, List.replicate 8 1⟩

def sr0 : StepRand := ⟨[], [], []⟩

def rr0 : RepRand := ⟨[], []⟩

theorem claim_C1_witness :
    countDiscTrain (stepCalls 2 4 1 3 (some 5) 12 0 ds0 sr0 (fun _ => rr0)) = 0 :=
  (claim_C1_gate_policy 2 4 1 3 (some 5) 12 0 ds0 sr0 (fun _ => rr0)).2.1
    5 rfl (by norm_num) (by norm_num)

theorem countP_flatMap {α β : Type _} (p : β → Bool) (l : List α) (f : α → List β) :
    (l.flatMap f).countP p = (l.map (fun a => (f a).countP p)).sum := by
  induction l with
  | nil => simp
  | cons a t ih => simp [List.countP_append, ih]

/-- C3 (amended): with 2 classes, batch size 4 and a dataset of 8 events,
one epoch runs exactly `8 / 4 = 2` training steps, and across the epoch the
generator receives exactly `2 + 4 * train_gen_per_epoch` predict/update
calls: one `generator.predict` per step plus `2 * train_gen_per_epoch`
`combined.train_on_batch` calls per step, over the 2 steps. -/
theorem claim_C3_amended (tg : ℕ) (L : ℚ) (lastGen : Option ℚ) (ds : Dataset)
    (sr : ℕ → StepRand) (rr : ℕ → ℕ → RepRand) (hds : ds.y.length = 8) :
    nb_batches ds.y.length 4 = 2 ∧
    countGenCalls
        (epochCalls 2 4 tg L lastGen 0 (nb_batches ds.y.length 4) ds sr rr) =
      2 + 4 * tg := by
  have hnb : nb_batches ds.y.length 4 = 2 := by rw [hds]; rfl
  refine ⟨hnb, ?_⟩
  rw [hnb]
  unfold epochCalls countGenCalls
  rw [countP_flatMap]
  have hmap : (List.range 2).map
      (fun i => (stepCalls 2 4 tg L lastGen 0 i ds (sr i) (rr i)).countP isGenSideCall) =
      (List.range 2).map (fun _ => 1 + 2 * tg) := by
    apply List.map_congr_left
    intro i _
    exact countGenCalls_step 2 4 tg L lastGen 0 i ds (sr i) (rr i)
  rw [hmap]
  simp [List.range_succ]
  ring

/-- C3, as stated, is false at `train_gen_per_epoch = 1`: the epoch issues
6 generator predict/update calls, not `2 + 2 * 1 = 4`. -/
theorem claim_C3_counterexample :
    countGenCalls
        (epochCalls 2 4 1 1000 none 0 (nb_batches 8 4) ds0 (fun _ => sr0)
          (fun _ _ => rr0)) = 6 ∧
    ¬ countGenCalls
        (epochCalls 2 4 1 1000 none 0 (nb_batches 8 4) ds0 (fun _ => sr0)
          (fun _ _ => rr0)) = 2 + 2 * 1 := by
  constructor <;> decide

theorem claim_C3_witness :
    nb_batches ds0.y.length 4 = 2 ∧
    countGenCalls
        (epochCalls 2 4 1 1000 none 0 (nb_batches ds0.y.length 4) ds0
          (fun _ => sr0) (fun _ _ => rr0)) = 2 + 4 * 1 :=
  claim_C3_amended 1 1000 none ds0 (fun _ => sr0) (fun _ _ => rr0) (by decide)

/-! ### Spec-side target construction (claim C7) -/

/-- The spec's per-batch target tuple: a realism target, an energy target,
and an optional class target (present only in ACGAN mode, `C > 1`). -/
structure SpecTargets where
  realism : List ℚ
  energyT : List ℚ
  classT : Option (List ℚ)

/-- Flatten a spec target tuple into the ordered target list handed to
`train_on_batch` (realism, energy, then class when present). -/
def specToList (t : SpecTargets) : List (List ℚ) :=
  [t.realism, t.energyT] ++ (match t.classT with | none => [] | some c => [c])

/-- Spec 4.1, real-batch targets: realism 1 for all examples, energy target
the batch's true energy, class target the true class label only if `C > 1`. -/
def spec_real_targets (C bs : ℕ) (label_batch : List ℕ) (energy_batch : List ℚ) :
    SpecTargets :=
  { realism := List.replicate bs (1 : ℚ)
    energyT := energy_batch
    classT := if 1 < C then some (natsToQ label_batch) else none }

/-- Spec 4.1, label noise: independently for each example, with probability
0.3, replace the class label with its logical negation of an indicator view. -/
def spec_label_noise (labels : List ℕ) (draws : List ℚ) : List ℕ :=
  List.zipWith (fun lab r => if r < (0.3 : ℚ) then (if lab = 0 then 1 else 0) else lab)
    labels draws

/-- Spec 4.1, fake-batch targets: realism 0, energy target the energy that
was requested when generating the fake batch, class target the requested
class with label noise at probability 0.3, only if `C > 1`. -/
def spec_fake_targets (C bs : ℕ) (sampled_labels : List ℕ)
    (sampled_energies : List ℚ) (draws : List ℚ) : SpecTargets :=
  { realism := List.replicate bs (0 : ℚ)
    energyT := sampled_energies
    classT := if 1 < C then some (natsToQ (spec_label_noise sampled_labels draws)) else none }

/-- Spec 4.1, generator/combined trick-step targets: all realism targets 1,
energy target the requested energy, class target the requested class with no
label noise, only if `C > 1`. -/
def spec_gen_targets (C bs : ℕ) (sampled_labels : List ℕ)
    (sampled_energies : List ℚ) : SpecTargets :=
  { realism := List.replicate bs (1 : ℚ)
    energyT := sampled_energies
    classT := if 1 < C then some (natsToQ sampled_labels) else none }

theorem bit_flip_eq_spec_label_noise (labels : List ℕ) (draws : List ℚ) :
    bit_flip labels draws (0.3 : ℚ) = spec_label_noise labels draws := by
  induction labels generalizing draws with
  | nil => rfl
  | cons a t ih =>
    cases draws with
    | nil => rfl
    | cons r rs =>
      rw [bit_flip_cons]
      show _ = (if r < (0.3 : ℚ) then (if a = 0 then 1 else 0) else a) :: spec_label_noise t rs
      rw [ih]
      rfl

/-- C7: the target lists the script passes to `train_on_batch` are exactly
the spec's per-batch targets — real batch: realism 1, true energy, true
labels when `C > 1`; fake batch: realism 0, requested energies, requested
labels under `bit_flip` noise at probability 0.3 when `C > 1`; trick step:
realism 1, requested energies, requested labels without noise when `C > 1`. -/
theorem claim_C7_targets (C bs : ℕ) (label_batch : List ℕ) (energy_batch : List ℚ)
    (sampled_labels : List ℕ) (sampled_energies : List ℚ) (draws : List ℚ) :
    disc_outputs_real C bs label_batch energy_batch =
      specToList (spec_real_targets C bs label_batch energy_batch) ∧
    disc_outputs_fake C bs sampled_labels sampled_energies draws =
      specToList (spec_fake_targets C bs sampled_labels sampled_energies draws) ∧
    combined_outputs_targets C bs sampled_labels sampled_energies =
      specToList (spec_gen_targets C bs sampled_labels sampled_energies) := by
  refine ⟨?_, ?_, ?_⟩ <;>
    by_cases hC : 1 < C <;>
      simp [disc_outputs_real, disc_outputs_fake, combined_outputs_targets,
        spec_real_targets, spec_fake_targets, spec_gen_targets, specToList,
        np_ones, np_zeros, hC, bit_flip_eq_spec_label_noise]

/-! ### The loss-weight invariant (claim C8) -/

/-- The loss weights of a train call, when it is one. -/
def callWeights : GanCall → Option (List (List ℚ))
  | .genPredict => none
  | .discTrain _ w => some w
  | .combTrain _ w => some w

/-- Spec 3, loss weight vector: realism weight 1.0, energy weight 0.05,
class weight 0.2 when ACGAN mode is active — per example. -/
def spec_loss_weights (C bs : ℕ) : List (List ℚ) :=
  [List.replicate bs (1 : ℚ), List.replicate bs (0.05 : ℚ)] ++
    (if 1 < C then [List.replicate bs (0.2 : ℚ)] else [])

theorem vecScale_replicate_one (c : ℚ) (n : ℕ) :
    vecScale c (List.replicate n (1 : ℚ)) = List.replicate n c := by
  simp [vecScale, List.map_replicate]

theorem loss_weights_eq_spec (C bs : ℕ) :
    loss_weights C bs = spec_loss_weights C bs := by
  by_cases hC : 1 < C <;>
    simp [loss_weights, spec_loss_weights, np_ones, hC, vecScale_replicate_one]

/-- C8: every `train_on_batch` call issued during an epoch — discriminator
real batch, discriminator fake batch, and every combined/generator update —
carries exactly the loss-weight vector with realism weight 1.0, energy
weight 0.05 and, when `C > 1`, class weight 0.2; it is the same vector for
all of them, for every epoch. -/
theorem claim_C8_loss_weights (C bs tg : ℕ) (L : ℚ) (lastGen : Option ℚ)
    (epoch nb : ℕ) (ds : Dataset) (sr : ℕ → StepRand) (rr : ℕ → ℕ → RepRand)
    (c : GanCall) (hc : c ∈ epochCalls C bs tg L lastGen epoch nb ds sr rr)
    (w : List (List ℚ)) (hw : callWeights c = some w) :
    w = spec_loss_weights C bs := by
  rcases List.mem_flatMap.mp hc with ⟨i, _, hstep⟩
  have hwlw : w = loss_weights C bs := by
    revert hstep
    by_cases hg : gateOpen lastGen L epoch <;>
      simp only [stepCalls, hg, if_true, if_false, List.cons_append,
        List.nil_append, List.mem_cons, List.mem_append, List.mem_map,
        List.mem_range, Bool.false_eq_true, ite_true, ite_false] <;>
      intro hstep
    · rcases hstep with h | h | h | h
      · subst h; simp [callWeights] at hw
      · subst h; simpa [callWeights] using hw.symm
      · subst h; simpa [callWeights] using hw.symm
      · rcases h with ⟨j, _, hj⟩
        subst hj; simpa [callWeights] using hw.symm
    · rcases hstep with h | h
      · subst h; simp [callWeights] at hw
      · rcases h with ⟨j, _, hj⟩
        subst hj; simpa [callWeights] using hw.symm
  rw [hwlw, loss_weights_eq_spec]

theorem claim_C8_witness :
    loss_weights 2 1 = spec_loss_weights 2 1 :=
  claim_C8_loss_weights 2 1 1 1000 none 0 1 ds0 (fun _ => sr0) (fun _ _ => rr0)
    (GanCall.discTrain
      (disc_outputs_real 2 1 ((ds0.y.drop (0 * 1)).take 1)
        ((ds0.energy.drop (0 * 1)).take 1))
      (loss_weights 2 1))
    (by
      unfold epochCalls stepCalls
      simp [gateOpen, List.mem_flatMap])
    (loss_weights 2 1) rfl

/-! ### Epoch-end bookkeeping (claim C2)

The module level of train.py initializes `last_epoch_gen_loss = None` and
`last_epoch_disc_loss = None` (lines 470-471); line 525 reads
`last_epoch_gen_loss` as the gate input.  At the end of `train_gan`
(lines 574-579) the script computes the epoch means and executes

  `last_epoch_disc_loss = np.mean(epoch_disc_loss, axis=0)[0]`
  `last_epoch_gen_lss = np.mean(epoch_gen_loss, axis=0)[0]`

Both assignment targets are plain names assigned inside the function body
with no `global` declaration, so by Python scoping they bind fresh
function-local names (the second one additionally misspells the module
variable).  The module-level state read by the gate is therefore left
untouched.  The embedding below returns both the (unchanged) module state
and the two discarded local bindings. -/

/-- The module-level loss bookkeeping of train.py lines 470-471. -/
structure TrainState where
  last_epoch_gen_loss : Option ℚ
  last_epoch_disc_loss : Option ℚ

/-- `np.mean(losses, axis=0)[0]`: the first entry of the columnwise mean of
a nonempty list of per-step loss vectors. -/
def epochMeanHead (losses : List (List ℚ)) : ℚ :=
  (losses.map (fun l => l.headD 0)).sum / (losses.length : ℚ)

/-- The values produced by the epoch-end bookkeeping: the module state
after the call and the two function-local bindings created by lines 578-579. -/
structure EpochEndResult where
  state : TrainState
  local_last_epoch_disc_loss : ℚ
  local_last_epoch_gen_lss : ℚ

/-- Embedding of the epoch-end bookkeeping of `train_gan` (train.py lines
574-579): the means are computed and bound to function locals; the
module-level state is returned unchanged because neither assignment targets
it (no `global` declaration, and line 579 assigns to the misspelled name
`last_epoch_gen_lss`). -/
def train_gan_epoch_end (st : TrainState) (epoch_gen_loss epoch_disc_loss : List (List ℚ)) :
    EpochEndResult :=
  { state := st
    local_last_epoch_disc_loss := epochMeanHead epoch_disc_loss
    local_last_epoch_gen_lss := epochMeanHead epoch_gen_loss }

/-- The module state consulted by the gate is unchanged by the epoch-end
bookkeeping, whatever the epoch's losses were. -/
theorem train_gan_epoch_end_state (st : TrainState)
    (epoch_gen_loss epoch_disc_loss : List (List ℚ)) :
    (train_gan_epoch_end st epoch_gen_loss epoch_disc_loss).state = st := rfl

/-- C2 fails on the code: starting from the fresh state (`None`, `None`),
after an epoch whose mean generator loss is 6 the recorded
`last_epoch_gen_loss` is still `None`, not 6 — the computed mean only
reaches a function-local (misspelled) name, so the gate input is never
updated. -/
theorem claim_C2_code_bug :
    (train_gan_epoch_end ⟨none, none⟩ [[5], [7]] [[1]]).state.last_epoch_gen_loss = none ∧
    epochMeanHead [[5], [7]] = 6 := by
  constructor
  · rfl
  · norm_num [epochMeanHead]

/-! ### Checkpoint epoch discovery (claim C4)

`getLastEpoch` (train.py lines 586-595) receives a glob pattern; we model
the result of `glob.glob` as the list of matching files together with the
`os.path.getctime` value the code keys on. -/

/-- A file visible to `getLastEpoch`: its name and its ctime. -/
structure FileInfo where
  name : String
  ctime : ℚ
deriving DecidableEq

/-- Lines 591-593: every non-digit character becomes a space, the string is
split on whitespace, and `int(float(tokens[0]))` is taken — i.e. the value
of the first maximal run of digits (`none` models the IndexError when the
name holds no digit; the float round-trip is exact for the epoch numbers in
range). -/
def firstNumber (s : String) : Option ℕ :=
  let run := (s.toList.dropWhile (fun c => ¬ c.isDigit)).takeWhile (fun c => c.isDigit)
  if run.isEmpty then none
  else some (run.foldl (fun a c => 10 * a + (c.toNat - 48)) 0)

/-- Python's `max(files, key=os.path.getctime)` (line 590): the first
element attaining the maximal ctime, `none` on an empty list. -/
def pyMaxByCtime : List FileInfo → Option FileInfo
  | [] => none
  | f :: fs => some (fs.foldl (fun best g => if best.ctime < g.ctime then g else best) f)

/-- `getLastEpoch` (train.py lines 586-595): `-1` when no file matches,
otherwise the first digit run of the most recently modified matching file. -/
def getLastEpoch (files : List FileInfo) : Option Int :=
  match pyMaxByCtime files with
  | none => some (-1)
  | some latest => (firstNumber latest.name).map (fun n => (n : Int))

theorem foldl_pyMax_eq (xs : List FileInfo) (f : FileInfo)
    (hmax : ∀ g ∈ xs, g ≠ f → g.ctime < f.ctime) :
    ∀ b, (b = f ∨ (b.ctime < f.ctime ∧ f ∈ xs)) →
      xs.foldl (fun best g => if best.ctime < g.ctime then g else best) b = f := by
  induction xs with
  | nil =>
    intro b hbf
    rcases hbf with rfl | ⟨_, hmem⟩
    · rfl
    · simp at hmem
  | cons g gs ih =>
    intro b hbf
    have ih' := ih (fun x hx hxf => hmax x (List.mem_cons_of_mem g hx) hxf)
    rw [List.foldl_cons]
    by_cases hgf : g = f
    · by_cases hbg : b.ctime < g.ctime
      · rw [if_pos hbg]
        exact ih' g (Or.inl hgf)
      · rw [if_neg hbg]
        rcases hbf with rfl | ⟨hblt, hmem⟩
        · exact ih' b (Or.inl rfl)
        · rcases List.mem_cons.mp hmem with heq | hmem'
          · exact absurd (heq ▸ hblt) hbg
          · exact ih' b (Or.inr ⟨hblt, hmem'⟩)
    · have hglt : g.ctime < f.ctime := hmax g (List.mem_cons_self g gs) hgf
      rcases hbf with rfl | ⟨hblt, hmem⟩
      · rw [if_neg (lt_asymm hglt)]
        exact ih' b (Or.inl rfl)
      · have hmem' : f ∈ gs := by
          rcases List.mem_cons.mp hmem with heq | h
          · exact absurd heq.symm hgf
          · exact h
        by_cases hbg : b.ctime < g.ctime
        · rw [if_pos hbg]
          exact ih' g (Or.inr ⟨hglt, hmem'⟩)
        · rw [if_neg hbg]
          exact ih' b (Or.inr ⟨hblt, hmem'⟩)

theorem pyMax_unique (files : List FileInfo) (f : FileInfo) (hf : f ∈ files)
    (hmax : ∀ g ∈ files, g ≠ f → g.ctime < f.ctime) :
    pyMaxByCtime files = some f := by
  cases files with
  | nil => simp at hf
  | cons x xs =>
    show some _ = some f
    congr 1
    have hmax' : ∀ g ∈ xs, g ≠ f → g.ctime < f.ctime := fun g hg hgf =>
      hmax g (List.mem_cons_of_mem x hg) hgf
    rcases List.mem_cons.mp hf with rfl | hfx
    · exact foldl_pyMax_eq xs f hmax' f (Or.inl rfl)
    · by_cases hxf : x = f
      · exact foldl_pyMax_eq xs f hmax' x (Or.inl hxf)
      · exact foldl_pyMax_eq xs f hmax' x
          (Or.inr ⟨hmax x (List.mem_cons_self x xs) hxf, hfx⟩)

/-- C4: with no matching file, discovery returns the sentinel `-1`; with
matches it returns the first maximal digit run of the chosen (most recently
modified) filename; and on the file set of the claim it returns 7 whenever
epoch numbers increase monotonically with recency (the maximal-epoch file
strictly the most recent) — ties in ctime among the older files are
irrelevant. -/
theorem claim_C4_checkpoint_discovery :
    getLastEpoch [] = some (-1) ∧
    (∀ files f, pyMaxByCtime files = some f →
      getLastEpoch files = (firstNumber f.name).map (fun n => (n : Int))) ∧
    (∀ (t1 t3 t7 : ℚ) (files : List FileInfo),
      files.Perm [⟨"g_0001_000.weights", t1⟩, ⟨"g_0007_000.weights", t7⟩,
        ⟨"g_0003_000.weights", t3⟩] →
      t1 < t7 → t3 < t7 →
      getLastEpoch files = some 7) := by
  refine ⟨rfl, ?_, ?_⟩
  · intro files f hmax
    rw [getLastEpoch, hmax]
  · intro t1 t3 t7 files hperm h17 h37
    have hmem : (⟨"g_0007_000.weights", t7⟩ : FileInfo) ∈ files :=
      hperm.mem_iff.mpr (by simp)
    have hmax : pyMaxByCtime files = some ⟨"g_0007_000.weights", t7⟩ := by
      apply pyMax_unique files _ hmem
      intro g hg hgne
      have : g ∈ [(⟨"g_0001_000.weights", t1⟩ : FileInfo),
          ⟨"g_0007_000.weights", t7⟩, ⟨"g_0003_000.weights", t3⟩] :=
        hperm.mem_iff.mp hg
      rcases List.mem_cons.mp this with rfl | h
      · exact h17
      rcases List.mem_cons.mp h with rfl | h
      · exact absurd rfl hgne
      rcases List.mem_cons.mp h with rfl | h
      · exact h37
      · simp at h
    rw [getLastEpoch, hmax]
    rfl

theorem claim_C4_witness :
    getLastEpoch [⟨"g_0001_000.weights", 0⟩, ⟨"g_0007_000.weights", 2⟩,
      ⟨"g_0003_000.weights", 1⟩] = some 7 :=
  claim_C4_checkpoint_discovery.2.2 0 1 2 _ (List.Perm.refl _)
    (by norm_num) (by norm_num)

/-! ### Cross-worker weight averaging at resume (claim C5)

train.py lines 668-701 (the same computation is done once for the generator
and once for the discriminator).  A network's weights (`get_weights()`) are
a list of parameter arrays; each parameter array is iterated over its first
axis, so we model a weight set as params × rows × entries, the elementwise
numpy operations acting on the flattened sub-arrays ("rows"). -/

/-- A `get_weights()` value: parameter arrays, each a list of rows. -/
abbrev NetWeights := List (List (List ℚ))

/-- The heads of every list, or `none` when some list is exhausted —
one step of Python's `zip(*lists)`. -/
def pyHeads : List (List α) → Option (List α)
  | [] => some []
  | [] :: _ => none
  | (x :: _) :: rest => (pyHeads rest).map (fun hs => x :: hs)

def pyZipStarAux : ℕ → List (List α) → List (List α)
  | 0, _ => []
  | n + 1, ls =>
    match pyHeads ls with
    | none => []
    | some hs => hs :: pyZipStarAux n (ls.map List.tail)

/-- Python's `zip(*lists)` on a list of lists: the transpose truncated to
the shortest list (`zip()` of nothing is empty). -/
def pyZipStar (ls : List (List α)) : List (List α) :=
  match ls with
  | [] => []
  | l :: rest => pyZipStarAux l.length (l :: rest)

/-- `np.array(rows).mean(axis=0)`: the elementwise mean of a tuple of rows
(lines 680 and 697). -/
def rowsMean (rows : List (List ℚ)) : List ℚ :=
  match rows with
  | [] => []
  | r :: rs => vecScale (1 / (((r :: rs).length : ℕ) : ℚ)) (rs.foldl vecAdd r)

/-- Lines 678-680 / 695-697: `new_weights` — for every parameter position
(outer `zip(*all_weights)`) and every row position (inner `zip`), the mean
of the workers' rows. -/
def ensembleMean (all : List NetWeights) : NetWeights :=
  (pyZipStar all).map (fun perRank => (pyZipStar perRank).map rowsMean)

/-- Lines 681-683 / 698-700: `weights_to_load` — per parameter and row,
`coeff * new_row + (1 - coeff) * own_row`. -/
def blend_weights (coeff : ℚ) (nw own : NetWeights) : NetWeights :=
  List.zipWith (fun npm opm =>
    List.zipWith (fun nr orow =>
      vecAdd (vecScale coeff nr) (vecScale (1 - coeff) orow)) npm opm) nw own

/-- The whole averaging step at resume (train.py lines 668-701): when
`weights_averaging_coeff != 0.0` is false the block is skipped and the
weights just loaded from the worker's own checkpoint stay installed;
otherwise every worker's checkpoint is loaded, the ensemble mean taken, and
the blend with the worker's own weights installed. -/
def cross_worker_average (coeff : ℚ) (own : NetWeights) (all : List NetWeights) :
    NetWeights :=
  if coeff = 0 then own else blend_weights coeff (ensembleMean all) own

/-- The claim's elementwise two-worker arithmetic mean `(a + b) / 2`. -/
def meanW (a b : NetWeights) : NetWeights :=
  List.zipWith (fun pa pb =>
    List.zipWith (fun ra rb =>
      List.zipWith (fun u v => (u + v) / 2) ra rb) pa pb) a b

/-- The shape of a weight set: per parameter, the list of row lengths. -/
def shapeOf (w : NetWeights) : List (List ℕ) := w.map (fun p => p.map List.length)

theorem pyZipStar_pair {α : Type _} (a : List α) :
    ∀ b : List α, a.length = b.length →
      pyZipStar [a, b] = List.zipWith (fun x y => [x, y]) a b := by
  induction a with
  | nil =>
    intro b h
    cases b with
    | nil => rfl
    | cons y ys => simp at h
  | cons x xs ih =>
    intro b h
    cases b with
    | nil => simp at h
    | cons y ys =>
      have h' : xs.length = ys.length := by simpa using h
      have hstep : pyZipStar [x :: xs, y :: ys] =
          [x, y] :: pyZipStar [xs, ys] := rfl
      rw [hstep, ih ys h']
      rfl

theorem pyZipStar_single {α : Type _} (a : List α) :
    pyZipStar [a] = a.map (fun x => [x]) := by
  induction a with
  | nil => rfl
  | cons x xs ih =>
    have hstep : pyZipStar [x :: xs] = [x] :: pyZipStar [xs] := rfl
    rw [hstep, ih]
    rfl

theorem vecScale_half_add (r : List ℚ) :
    ∀ s : List ℚ, vecScale (1 / 2) (vecAdd r s) =
      List.zipWith (fun u v => (u + v) / 2) r s := by
  induction r with
  | nil => intro s; rfl
  | cons x xs ih =>
    intro s
    cases s with
    | nil => rfl
    | cons y ys =>
      show (1 / 2 * (x + y)) :: vecScale (1 / 2) (vecAdd xs ys) = ((x + y) / 2) :: _
      rw [ih ys]
      congr 1
      ring

theorem rowsMean_pair (r s : List ℚ) :
    rowsMean [r, s] = List.zipWith (fun u v => (u + v) / 2) r s := by
  show vecScale (1 / (((2 : ℕ) : ℚ))) (vecAdd r s) = _
  rw [show (((2 : ℕ) : ℚ)) = 2 from by norm_num]
  exact vecScale_half_add r s

theorem rowsMean_single (r : List ℚ) : rowsMean [r] = r := by
  show vecScale (1 / (((1 : ℕ) : ℚ))) r = r
  rw [show (((1 : ℕ) : ℚ)) = 1 from by norm_num]
  simp [vecScale]

theorem vecAdd_scale_one_zero (n : List ℚ) :
    ∀ t : List ℚ, n.length = t.length →
      vecAdd (vecScale 1 n) (vecScale 0 t) = n := by
  induction n with
  | nil => intro t _; rfl
  | cons x xs ih =>
    intro t h
    cases t with
    | nil => simp at h
    | cons y ys =>
      have h' : xs.length = ys.length := by simpa using h
      show (1 * x + 0 * y) :: vecAdd (vecScale 1 xs) (vecScale 0 ys) = x :: xs
      rw [ih ys h']
      congr 1
      ring

theorem ensembleMean_pair (a : NetWeights) :
    ∀ b : NetWeights, shapeOf a = shapeOf b → ensembleMean [a, b] = meanW a b := by
  induction a with
  | nil =>
    intro b hab
    cases b with
    | nil => rfl
    | cons pb b' => simp [shapeOf] at hab
  | cons pa a' ih =>
    intro b hab
    cases b with
    | nil => simp [shapeOf] at hab
    | cons pb b' =>
      simp only [shapeOf, List.map_cons, List.cons.injEq] at hab
      obtain ⟨hhead, htail⟩ := hab
      have hlen : pa.length = pb.length := by
        have := congrArg List.length hhead
        simpa using this
      have hstep : ensembleMean [pa :: a', pb :: b'] =
          ((pyZipStar [pa, pb]).map rowsMean) :: ensembleMean [a', b'] := rfl
      rw [hstep, ih b' htail]
      show _ :: _ = List.zipWith _ (pa :: a') (pb :: b')
      rw [List.zipWith_cons_cons]
      congr 1
      rw [pyZipStar_pair pa pb hlen, List.map_zipWith]
      simp only [rowsMean_pair]

theorem blend_param_one (npm : List (List ℚ)) :
    ∀ opm : List (List ℚ), npm.map List.length = opm.map List.length →
      List.zipWith (fun nr orow =>
        vecAdd (vecScale 1 nr) (vecScale 0 orow)) npm opm = npm := by
  induction npm with
  | nil => intro opm _; rfl
  | cons nr npm' ih =>
    intro opm h
    cases opm with
    | nil => simp at h
    | cons orow opm' =>
      simp only [List.map_cons, List.cons.injEq] at h
      obtain ⟨hh, ht⟩ := h
      rw [List.zipWith_cons_cons, ih opm' ht, vecAdd_scale_one_zero nr orow hh]

theorem blend_one (nw : NetWeights) :
    ∀ own : NetWeights, shapeOf nw = shapeOf own → blend_weights 1 nw own = nw := by
  intro own h
  have h0 : blend_weights 1 nw own = List.zipWith (fun npm opm =>
      List.zipWith (fun nr orow =>
        vecAdd (vecScale 1 nr) (vecScale 0 orow)) npm opm) nw own := by
    simp only [blend_weights, show (1 : ℚ) - 1 = 0 from by norm_num]
  rw [h0]
  clear h0
  induction nw generalizing own with
  | nil => rfl
  | cons npm nw' ih =>
    cases own with
    | nil => simp [shapeOf] at h
    | cons opm own' =>
      simp only [shapeOf, List.map_cons, List.cons.injEq] at h
      obtain ⟨hh, ht⟩ := h
      rw [List.zipWith_cons_cons, ih own' ht, blend_param_one npm opm hh]

theorem map_length_mean_rows (pa : List (List ℚ)) :
    ∀ pb : List (List ℚ), pa.map List.length = pb.map List.length →
      (List.zipWith (fun ra rb =>
        List.zipWith (fun u v => (u + v) / 2) ra rb) pa pb).map List.length =
      pa.map List.length := by
  induction pa with
  | nil => intro pb _; rfl
  | cons ra pa' ih =>
    intro pb h
    cases pb with
    | nil => simp at h
    | cons rb pb' =>
      simp only [List.map_cons, List.cons.injEq] at h
      obtain ⟨hh, ht⟩ := h
      rw [List.zipWith_cons_cons, List.map_cons, List.map_cons, ih pb' ht]
      congr 1
      rw [List.length_zipWith, hh, min_self]

theorem shapeOf_meanW (a : NetWeights) :
    ∀ b : NetWeights, shapeOf a = shapeOf b → shapeOf (meanW a b) = shapeOf a := by
  induction a with
  | nil => intro b _; rfl
  | cons pa a' ih =>
    intro b hab
    cases b with
    | nil => simp [shapeOf] at hab
    | cons pb b' =>
      simp only [shapeOf, List.map_cons, List.cons.injEq] at hab
      obtain ⟨hhead, htail⟩ := hab
      have h1 : shapeOf (meanW (pa :: a') (pb :: b')) =
          ((List.zipWith (fun ra rb =>
            List.zipWith (fun u v => (u + v) / 2) ra rb) pa pb).map List.length)
            :: shapeOf (meanW a' b') := rfl
      have h2 : shapeOf (pa :: a') = (pa.map List.length) :: shapeOf a' := rfl
      rw [h1, h2, map_length_mean_rows pa pb hhead]
      congr 1
      exact ih b' htail

/-- C5: with coefficient 0 the averaging block is skipped and the installed
weights are exactly the ones loaded from the worker's own checkpoint; with
coefficient 1 and two workers holding weights `a` and `b` the installed
weights are the elementwise arithmetic mean `(a + b) / 2`; and a single
worker averaged with itself at coefficient 1 is a no-op. -/
theorem claim_C5_weight_averaging :
    (∀ own all, cross_worker_average 0 own all = own) ∧
    (∀ own a b, shapeOf own = shapeOf a → shapeOf a = shapeOf b →
      cross_worker_average 1 own [a, b] = meanW a b) ∧
    (∀ own a, shapeOf own = shapeOf a → cross_worker_average 1 own [a] = a) := by
  refine ⟨?_, ?_, ?_⟩
  · intro own all
    simp [cross_worker_average]
  · intro own a b hoa hab
    rw [cross_worker_average, if_neg one_ne_zero, ensembleMean_pair a b hab]
    apply blend_one
    rw [shapeOf_meanW a b hab, ← hoa]
  · intro own a hoa
    rw [cross_worker_average, if_neg one_ne_zero]
    have hsingle : ∀ pa : List (List ℚ), (pyZipStar [pa]).map rowsMean = pa := by
      intro pa
      rw [pyZipStar_single, List.map_map]
      have hcomp : (rowsMean ∘ fun r : List ℚ => [r]) = id :=
        funext (fun r => rowsMean_single r)
      rw [hcomp, List.map_id]
    have h1 : ensembleMean [a] = a := by
      show (pyZipStar [a]).map (fun perRank => (pyZipStar perRank).map rowsMean) = a
      rw [pyZipStar_single, List.map_map]
      have hcomp : ((fun perRank => (pyZipStar perRank).map rowsMean) ∘
          fun pa : List (List ℚ) => [pa]) = id :=
        funext (fun pa => hsingle pa)
      rw [hcomp, List.map_id]
    rw [h1]
    exact blend_one a own hoa.symm

theorem claim_C5_witness :
    cross_worker_average 0 [[[(7 : ℚ)]]] [] = [[[(7 : ℚ)]]] ∧
    cross_worker_average 1 [[[(0 : ℚ), 0]]] [[[[(1 : ℚ), 3]]], [[[(3 : ℚ), 5]]]] =
      meanW [[[(1 : ℚ), 3]]] [[[(3 : ℚ), 5]]] ∧
    cross_worker_average 1 [[[(0 : ℚ), 0]]] [[[[(1 : ℚ), 3]]]] = [[[(1 : ℚ), 3]]] :=
  ⟨claim_C5_weight_averaging.1 [[[(7 : ℚ)]]] [],
   claim_C5_weight_averaging.2.1 [[[(0 : ℚ), 0]]] [[[(1 : ℚ), 3]]] [[[(3 : ℚ), 5]]]
     (by decide) (by decide),
   claim_C5_weight_averaging.2.2 [[[(0 : ℚ), 0]]] [[[(1 : ℚ), 3]]] (by decide)⟩

/-! ### Missing checkpoint artifacts at resume (claim C9)

train.py lines 608-633 (optimizer-state mode) and 650-666 (weights mode):
for each required artifact the exact filename is globbed (the pattern holds
no wildcard, so it matches exactly when the file exists) and an `Exception`
carrying the filename is raised when it is absent.  The filesystem is
modelled as the list of existing filenames. -/

/-- `'{0}{1:04d}_{2:03d}'.format(...)`: zero-pad a natural to a width. -/
def natPad (w n : ℕ) : String :=
  let s := toString n
  String.mk (List.replicate (w - s.length) '0') ++ s

/-- The checkpoint filename `pfx + epoch(04d) + "_" + rank(03d) + ext`
(train.py lines 609, 618, 627, 651, 660). -/
def checkpoint_filename (pfx : String) (epoch rank : ℕ) (ext : String) : String :=
  pfx ++ natPad 4 epoch ++ "_" ++ natPad 3 rank ++ ext

/-- The optimizer-state resume block (train.py lines 608-633): the
generator, discriminator and combined optimizer-state files are required in
that order; the first missing one raises with its filename. -/
def load_optimizer_states (existing : List String) (g_pfx d_pfx c_pfx : String)
    (epoch rank : ℕ) : Except String Unit :=
  let gf := checkpoint_filename g_pfx epoch rank ".optimizer"
  if gf ∈ existing then
    let df := checkpoint_filename d_pfx epoch rank ".optimizer"
    if df ∈ existing then
      let cf := checkpoint_filename c_pfx epoch rank ".optimizer"
      if cf ∈ existing then Except.ok ()
      else Except.error ("Combined optimizer state file " ++ cf ++ " not found")
    else Except.error ("Discriminator optimizer state file " ++ df ++ " not found")
  else Except.error ("Generator optimizer state file " ++ gf ++ " not found")

/-- The weights resume block (train.py lines 650-666): the generator and
discriminator weights files are required in that order; the first missing
one raises with its filename (the message label of the discriminator branch
reads "Generator weights file", as in the source, but carries the
discriminator filename). -/
def load_weights_files (existing : List String) (g_pfx d_pfx : String)
    (epoch rank : ℕ) : Except String Unit :=
  let gf := checkpoint_filename g_pfx epoch rank ".weights"
  if gf ∈ existing then
    let df := checkpoint_filename d_pfx epoch rank ".weights"
    if df ∈ existing then Except.ok ()
    else Except.error ("Generator weights file " ++ df ++ " not found")
  else Except.error ("Generator weights file " ++ gf ++ " not found")

/-- `sub` occurs verbatim inside `msg`. -/
def containsStr (msg sub : String) : Prop := ∃ p s, msg = p ++ sub ++ s

theorem containsStr_build (pre sub post : String) :
    containsStr (pre ++ sub ++ post) sub := ⟨pre, post, rfl⟩

/-- C9: during a requested resume, whenever a required checkpoint artifact
(generator/discriminator/combined optimizer state in optimizer mode;
generator/discriminator weights in weights mode) is missing for the target
epoch and rank, the loader ends in an error whose message contains the
missing filename — and it succeeds only when every required file exists, so
it never silently falls back to random initialization. -/
theorem claim_C9_missing_artifacts (existing : List String)
    (g_pfx d_pfx c_pfx : String) (epoch rank : ℕ) :
    ((checkpoint_filename g_pfx epoch rank ".optimizer" ∉ existing ∨
      checkpoint_filename d_pfx epoch rank ".optimizer" ∉ existing ∨
      checkpoint_filename c_pfx epoch rank ".optimizer" ∉ existing) →
      ∃ f msg, f ∈ [checkpoint_filename g_pfx epoch rank ".optimizer",
          checkpoint_filename d_pfx epoch rank ".optimizer",
          checkpoint_filename c_pfx epoch rank ".optimizer"] ∧
        f ∉ existing ∧
        load_optimizer_states existing g_pfx d_pfx c_pfx epoch rank =
          Except.error msg ∧
        containsStr msg f) ∧
    (load_optimizer_states existing g_pfx d_pfx c_pfx epoch rank = Except.ok () →
      checkpoint_filename g_pfx epoch rank ".optimizer" ∈ existing ∧
      checkpoint_filename d_pfx epoch rank ".optimizer" ∈ existing ∧
      checkpoint_filename c_pfx epoch rank ".optimizer" ∈ existing) ∧
    ((checkpoint_filename g_pfx epoch rank ".weights" ∉ existing ∨
      checkpoint_filename d_pfx epoch rank ".weights" ∉ existing) →
      ∃ f msg, f ∈ [checkpoint_filename g_pfx epoch rank ".weights",
          checkpoint_filename d_pfx epoch rank ".weights"] ∧
        f ∉ existing ∧
        load_weights_files existing g_pfx d_pfx epoch rank = Except.error msg ∧
        containsStr msg f) ∧
    (load_weights_files existing g_pfx d_pfx epoch rank = Except.ok () →
      checkpoint_filename g_pfx epoch rank ".weights" ∈ existing ∧
      checkpoint_filename d_pfx epoch rank ".weights" ∈ existing) := by
  refine ⟨?_, ?_, ?_, ?_⟩
  · intro hmiss
    by_cases hg : checkpoint_filename g_pfx epoch rank ".optimizer" ∈ existing
    · by_cases hd : checkpoint_filename d_pfx epoch rank ".optimizer" ∈ existing
      · by_cases hc : checkpoint_filename c_pfx epoch rank ".optimizer" ∈ existing
        · rcases hmiss with h | h | h <;> exact absurd (by assumption) h
        · refine ⟨checkpoint_filename c_pfx epoch rank ".optimizer", _,
            by simp, hc, ?_, containsStr_build "Combined optimizer state file " _ " not found"⟩
          simp [load_optimizer_states, hg, hd, hc]
      · refine ⟨checkpoint_filename d_pfx epoch rank ".optimizer", _,
          by simp, hd, ?_, containsStr_build "Discriminator optimizer state file " _ " not found"⟩
        simp [load_optimizer_states, hg, hd]
    · refine ⟨checkpoint_filename g_pfx epoch rank ".optimizer", _,
        by simp, hg, ?_, containsStr_build "Generator optimizer state file " _ " not found"⟩
      simp [load_optimizer_states, hg]
  · intro hok
    by_cases hg : checkpoint_filename g_pfx epoch rank ".optimizer" ∈ existing
    · by_cases hd : checkpoint_filename d_pfx epoch rank ".optimizer" ∈ existing
      · by_cases hc : checkpoint_filename c_pfx epoch rank ".optimizer" ∈ existing
        · exact ⟨hg, hd, hc⟩
        · simp [load_optimizer_states, hg, hd, hc] at hok
      · simp [load_optimizer_states, hg, hd] at hok
    · simp [load_optimizer_states, hg] at hok
  · intro hmiss
    by_cases hg : checkpoint_filename g_pfx epoch rank ".weights" ∈ existing
    · by_cases hd : checkpoint_filename d_pfx epoch rank ".weights" ∈ existing
      · rcases hmiss with h | h <;> exact absurd (by assumption) h
      · refine ⟨checkpoint_filename d_pfx epoch rank ".weights", _,
          by simp, hd, ?_, containsStr_build "Generator weights file " _ " not found"⟩
        simp [load_weights_files, hg, hd]
    · refine ⟨checkpoint_filename g_pfx epoch rank ".weights", _,
        by simp, hg, ?_, containsStr_build "Generator weights file " _ " not found"⟩
      simp [load_weights_files, hg]
  · intro hok
    by_cases hg : checkpoint_filename g_pfx epoch rank ".weights" ∈ existing
    · by_cases hd : checkpoint_filename d_pfx epoch rank ".weights" ∈ existing
      · exact ⟨hg, hd⟩
      · simp [load_weights_files, hg, hd] at hok
    · simp [load_weights_files, hg] at hok

theorem claim_C9_witness :
    ∃ f msg, f ∈ [checkpoint_filename "params_generator_epoch_" 1 0 ".optimizer",
        checkpoint_filename "params_discriminator_epoch_" 1 0 ".optimizer",
        checkpoint_filename "params_combined_epoch_" 1 0 ".optimizer"] ∧
      f ∉ ([] : List String) ∧
      load_optimizer_states [] "params_generator_epoch_" "params_discriminator_epoch_"
        "params_combined_epoch_" 1 0 = Except.error msg ∧
      containsStr msg f :=
  (claim_C9_missing_artifacts [] "params_generator_epoch_" "params_discriminator_epoch_"
    "params_combined_epoch_" 1 0).1 (Or.inl (by simp))

end CaloGAN
